import Mathlib

/-!
Shallow embedding of the two maintenance scripts of this repository:
the scanner (find_unwrapped_styles.py) and the fixer (fix_stylesheets.py).
File contents are modelled as lists of characters.  The Python regular
expressions used by the scripts are embedded as deterministic matchers;
each matcher's doc comment records the regex it implements and why the
deterministic version coincides with Python's leftmost greedy
backtracking semantics for that particular pattern.
-/

/-- Whitespace class of the Python regex escape backslash-s, ASCII fragment
(space, tab, newline, carriage return, vertical tab, form feed). -/
def isSpaceChar (c : Char) : Bool :=
  c = ' ' || c = '\t' || c = '\n' || c = '\r' || c = '\x0b' || c = '\x0c'

/-- Word-character class of the Python regex escape backslash-w, ASCII fragment
(letters, digits, underscore). -/
def isWordChar (c : Char) : Bool :=
  c.isAlpha || c.isDigit || c = '_'

/-- Boolean prefix test on character lists. -/
def hasPrefixL : List Char → List Char → Bool
  | [], _ => true
  | _ :: _, [] => false
  | a :: as, b :: bs => a = b && hasPrefixL as bs

/-- Python substring membership test (the operator in): the needle occurs
somewhere in the haystack. -/
def hasSubstr (needle : List Char) : List Char → Bool
  | [] => needle.isEmpty
  | c :: cs => hasPrefixL needle (c :: cs) || hasSubstr needle cs

/-- Drops the literal first argument from the front of the second argument,
if it is a prefix; otherwise none. -/
def dropLit : List Char → List Char → Option (List Char)
  | [], s => some s
  | _ :: _, [] => none
  | l :: ls, c :: cs => if c = l then dropLit ls cs else none

/-- Literal const keyword of the style-declaration regex. -/
def litConst : List Char := ("const").data

/-- Literal upper-case stem of the style-declaration regex fragment [Ss]tyle. -/
def stemUpper : List Char := ("Style").data

/-- Literal lower-case stem of the style-declaration regex fragment [Ss]tyle. -/
def stemLower : List Char := ("style").data

/-- Literal tested by the fixer's import guard (line 13 of fix_stylesheets.py). -/
def litStyleSheet : List Char := ("StyleSheet").data

/-- Literal tested by the fixer's wrap guard and the scanner's compliance
regex (StyleSheet backslash-dot create is a literal once the escape is removed). -/
def litCreate : List Char := ("StyleSheet.create").data

/-- Literal react-native import pattern of fix_stylesheet_imports (line 17);
the pattern contains no regex metacharacters, so the search and sub are literal. -/
def litFromRN : List Char := ("from 'react-native';").data

/-- Replacement text of the first substitution in fix_stylesheet_imports
(line 22): a close brace and a space are prepended. -/
def litFromRNRepl : List Char := ("\x7d from 'react-native';").data

/-- Literal import keyword. -/
def litImport : List Char := ("import").data

/-- Literal head of the React import pattern (line 32 of fix_stylesheets.py). -/
def litImportReact : List Char := ("import React").data

/-- New import line inserted after a React import (line 36 of fix_stylesheets.py). -/
def litNewImport : List Char := ("import \x7b StyleSheet \x7d from 'react-native';").data

/-- Head of the replacement of the braced-import substitution (line 27). -/
def litImpRepl1 : List Char := ("import \x7b ").data

/-- Tail of the replacement of the braced-import substitution (line 27). -/
def litImpRepl2 : List Char := (", StyleSheet \x7d from 'react-native';").data

/-- Head of the style-declaration replacement (line 57 of fix_stylesheets.py). -/
def litDeclRepl1 : List Char := ("const ").data

/-- Tail of the style-declaration replacement (line 57 of fix_stylesheets.py). -/
def litDeclRepl2 : List Char := (" = StyleSheet.create(\x7b").data

/-- Literal tail of the wrapped-declaration line pattern (line 72). -/
def litCreateOpen : List Char := ("StyleSheet.create(\x7b").data

/-- Bare statement-terminator line content (close brace semicolon). -/
def litCloseSemi : List Char := ("\x7d;").data

/-- Rewritten terminator line content (close brace close paren semicolon). -/
def litCloseParen : List Char := ("\x7d);").data

/-- Matches an equals sign followed by optional whitespace and an opening
brace (the regex tail equals-sign backslash-s* open-brace); the first
argument is the already-captured variable name, passed through. -/
def afterEq (w : List Char) : List Char → Option (List Char × List Char)
  | [] => none
  | c5 :: r5 =>
    if c5 = '=' then
      match r5.dropWhile isSpaceChar with
      | [] => none
      | c7 :: r7 => if c7 = '\x7b' then some (w, r7) else none
    else none

/-- Tail of the style-declaration matcher, applied after the mandatory
whitespace following const has been dropped.  Implements the regex part
(backslash-w* [Ss]tyle s? backslash-w*) backslash-s* = backslash-s*
open-brace.  The captured group must start at the head of r2 (shortening
the preceding whitespace run would put a space where a word character or S
is required) and must extend over the whole maximal word run (stopping
early would put a word character where backslash-s* = requires a space or
equals sign), so the capture equals the maximal word run, and the run
matches the group exactly when it contains the five-character stem Style
or style. -/
def matchStyleDeclTail (r2 : List Char) : Option (List Char × List Char) :=
  if hasSubstr stemUpper (r2.takeWhile isWordChar)
      || hasSubstr stemLower (r2.takeWhile isWordChar) then
    afterEq (r2.takeWhile isWordChar) ((r2.dropWhile isWordChar).dropWhile isSpaceChar)
  else none

/-- Requires at least one whitespace character (the regex part backslash-s+
after const), drops the maximal whitespace run, and hands over to the tail
matcher.  Giving back whitespace characters cannot help the rest of the
pattern, so the greedy run is committed. -/
def matchStyleSpace : List Char → Option (List Char × List Char)
  | [] => none
  | c0 :: t =>
    if isSpaceChar c0 then matchStyleDeclTail ((c0 :: t).dropWhile isSpaceChar)
    else none

/-- Attempted match, at the head of the input, of the style-declaration
regex of both scripts: const backslash-s+ (backslash-w* [Ss]tyle s?
backslash-w*) backslash-s* = backslash-s* open-brace.  Returns the captured
variable name and the input remaining after the opening brace. -/
def matchStyleDeclAt (s : List Char) : Option (List Char × List Char) :=
  match dropLit litConst s with
  | none => none
  | some r1 => matchStyleSpace r1

/-- Anchored match test of the wrapped-declaration pattern of line 72 of
fix_stylesheets.py: const backslash-s+ backslash-w* [Ss]tyle s? backslash-w*
backslash-s* = backslash-s* StyleSheet backslash-dot create backslash-lparen
open-brace, applied by re.match to a stripped line (a prefix match). -/
def matchesCreateLine (s : List Char) : Bool :=
  match dropLit litConst s with
  | none => false
  | some [] => false
  | some (c0 :: t) =>
    if isSpaceChar c0 then
      createLineTail ((c0 :: t).dropWhile isSpaceChar)
    else false
where
  /-- Tail test after the mandatory whitespace: word run containing the
  stem, optional whitespace, equals sign, optional whitespace, then the
  literal StyleSheet.create followed by a parenthesis and an open brace. -/
  createLineTail (r2 : List Char) : Bool :=
    if hasSubstr stemUpper (r2.takeWhile isWordChar)
        || hasSubstr stemLower (r2.takeWhile isWordChar) then
      match (r2.dropWhile isWordChar).dropWhile isSpaceChar with
      | '=' :: r5 => (dropLit litCreateOpen (r5.dropWhile isSpaceChar)).isSome
      | _ => false
    else false

/-- Segment step of the braced-import matcher: the first argument is the
text strictly between the open brace and the first close brace, the second
argument is the rest of the input starting at that close brace.  The
one-or-more non-close-brace class requires the segment to be nonempty; the
capture is the segment minus its maximal whitespace prefix (greedy
backslash-s* inside the braces), except that when the segment is all
whitespace the one-or-more quantifier takes back the segment's last
character from the whitespace run.  After the close brace, whitespace is
dropped and the literal from 'react-native'; must follow. -/
def importSeg (seg : List Char) : List Char → Option (List Char × List Char)
  | [] => none
  | c3 :: r3 =>
    if c3 = '\x7d' then
      if seg.isEmpty then none
      else
        match dropLit litFromRN (r3.dropWhile isSpaceChar) with
        | some r4 =>
          some ((if (seg.dropWhile isSpaceChar).isEmpty then seg.drop (seg.length - 1)
                 else seg.dropWhile isSpaceChar), r4)
        | none => none
    else none

/-- Open-brace step of the braced-import matcher: after the import keyword
and optional whitespace an open brace is required; the non-close-brace
class cannot cross a close brace, so the close brace consumed by the
pattern is the first one after the open brace. -/
def importAfterKw : List Char → Option (List Char × List Char)
  | [] => none
  | c2 :: r2 =>
    if c2 = '\x7b' then
      importSeg (r2.takeWhile (fun c => c ≠ '\x7d')) (r2.dropWhile (fun c => c ≠ '\x7d'))
    else none

/-- Attempted match, at the head of the input, of the braced-import regex
of line 26 of fix_stylesheets.py: import backslash-s* open-brace
backslash-s* (one-or-more non-close-brace) backslash-s* close-brace
backslash-s* from 'react-native';.  Returns the captured group and the
remaining input. -/
def matchImportBraceAt (s : List Char) : Option (List Char × List Char) :=
  match dropLit litImport s with
  | none => none
  | some r1 => importAfterKw (r1.dropWhile isSpaceChar)

/-- Semicolon step of the React import matcher: the first argument is the
text strictly between import React and the first semicolon, the second is
the rest of the input starting at that semicolon. -/
def reactSeg (seg : List Char) : List Char → Option (List Char × List Char)
  | [] => none
  | c2 :: r2 =>
    if c2 = ';' then some (litImportReact ++ seg ++ [';'], r2) else none

/-- Attempted match, at the head of the input, of the React import regex of
line 32 of fix_stylesheets.py: (import React non-semicolon* semicolon).
Returns the whole match (group 1 is the whole match) and the remaining
input; the non-semicolon class stops exactly at the first semicolon. -/
def matchImportReactAt (s : List Char) : Option (List Char × List Char) :=
  match dropLit litImportReact s with
  | none => none
  | some r1 => reactSeg (r1.takeWhile (fun c => c ≠ ';')) (r1.dropWhile (fun c => c ≠ ';'))

/-- Length accounting for dropLit. -/
theorem dropLit_length : ∀ (l s r : List Char), dropLit l s = some r →
    r.length + l.length = s.length := by
  intro l
  induction l with
  | nil =>
    intro s r h
    simp [dropLit] at h
    simp [h]
  | cons a as ih =>
    intro s r h
    cases s with
    | nil => exact Option.noConfusion h
    | cons c cs =>
      by_cases hca : c = a
      · have h' : dropLit as cs = some r := by
          have hh : (if c = a then dropLit as cs else none) = some r := h
          rwa [if_pos hca] at hh
        have := ih cs r h'
        simp only [List.length_cons]
        omega
      · have hh : (if c = a then dropLit as cs else none) = some r := h
        rw [if_neg hca] at hh
        exact Option.noConfusion hh

/-- Dropping a prefix of elements satisfying a predicate never lengthens a list. -/
theorem dropWhile_length_le (p : Char → Bool) : ∀ (l : List Char),
    (l.dropWhile p).length ≤ l.length := by
  intro l
  induction l with
  | nil => simp [List.dropWhile]
  | cons c cs ih =>
    simp only [List.dropWhile]
    cases p c with
    | true => simpa using Nat.le_succ_of_le ih
    | false => simp

/-- The equals-and-brace matcher only shrinks its input. -/
theorem afterEq_length {w s w' r : List Char}
    (h : afterEq w s = some (w', r)) : r.length < s.length := by
  cases s with
  | nil => exact Option.noConfusion h
  | cons c5 r5 =>
    have hh : (if c5 = '=' then
        (match r5.dropWhile isSpaceChar with
          | [] => none
          | c7 :: r7 => if c7 = '\x7b' then some (w, r7) else none)
        else none) = some (w', r) := h
    split at hh
    · cases h7 : r5.dropWhile isSpaceChar with
      | nil => rw [h7] at hh; exact Option.noConfusion hh
      | cons c7 r7 =>
        rw [h7] at hh
        have hh2 : (if c7 = '\x7b' then some (w, r7) else none) = some (w', r) := hh
        split at hh2
        · have hr : r = r7 := by
            injection hh2 with hh1
            injection hh1 with hw3 hh3
            exact hh3.symm
          have h1 : r7.length + 1 ≤ r5.length := by
            have := dropWhile_length_le isSpaceChar r5
            rw [h7] at this
            simp only [List.length_cons] at this
            omega
          subst hr
          simp only [List.length_cons]
          omega
        · exact Option.noConfusion hh2
    · exact Option.noConfusion hh

/-- The style tail matcher only shrinks its input. -/
theorem matchStyleDeclTail_length {r2 w r : List Char}
    (h : matchStyleDeclTail r2 = some (w, r)) : r.length < r2.length := by
  unfold matchStyleDeclTail at h
  split at h
  · have h1 := afterEq_length h
    have h2 := dropWhile_length_le isSpaceChar (r2.dropWhile isWordChar)
    have h3 := dropWhile_length_le isWordChar r2
    omega
  · exact Option.noConfusion h

/-- The whitespace-then-tail matcher only shrinks its input. -/
theorem matchStyleSpace_length {s w r : List Char}
    (h : matchStyleSpace s = some (w, r)) : r.length < s.length := by
  cases s with
  | nil => exact Option.noConfusion h
  | cons c0 t =>
    have hh : (if isSpaceChar c0 = true then
        matchStyleDeclTail ((c0 :: t).dropWhile isSpaceChar) else none) = some (w, r) := h
    split at hh
    · have h1 := matchStyleDeclTail_length hh
      have h2 := dropWhile_length_le isSpaceChar (c0 :: t)
      omega
    · exact Option.noConfusion hh

/-- The style-declaration matcher only shrinks its input. -/
theorem matchStyleDeclAt_length {s w r : List Char}
    (h : matchStyleDeclAt s = some (w, r)) : r.length < s.length := by
  unfold matchStyleDeclAt at h
  cases hd : dropLit litConst s with
  | none => rw [hd] at h; exact Option.noConfusion h
  | some r1 =>
    rw [hd] at h
    have h' : matchStyleSpace r1 = some (w, r) := h
    have h1 := matchStyleSpace_length h'
    have h2 := dropLit_length _ _ _ hd
    have h3 : litConst.length = 5 := by decide
    omega

/-- The import segment matcher only shrinks its input. -/
theorem importSeg_length {seg s cap r : List Char}
    (h : importSeg seg s = some (cap, r)) : r.length < s.length := by
  cases s with
  | nil => exact Option.noConfusion h
  | cons c3 r3 =>
    by_cases hc3 : c3 = '\x7d'
    · by_cases hseg : seg.isEmpty = true
      · have hh : (if c3 = '\x7d' then (if seg.isEmpty then none else
            (match dropLit litFromRN (r3.dropWhile isSpaceChar) with
              | some r4 =>
                some ((if (seg.dropWhile isSpaceChar).isEmpty then seg.drop (seg.length - 1)
                       else seg.dropWhile isSpaceChar), r4)
              | none => none)) else none) = some (cap, r) := h
        rw [if_pos hc3, if_pos hseg] at hh
        exact Option.noConfusion hh
      · have hh : (match dropLit litFromRN (r3.dropWhile isSpaceChar) with
            | some r4 =>
              some ((if (seg.dropWhile isSpaceChar).isEmpty then seg.drop (seg.length - 1)
                     else seg.dropWhile isSpaceChar), r4)
            | none => none) = some (cap, r) := by
          have hh0 : (if c3 = '\x7d' then (if seg.isEmpty then none else
              (match dropLit litFromRN (r3.dropWhile isSpaceChar) with
                | some r4 =>
                  some ((if (seg.dropWhile isSpaceChar).isEmpty then seg.drop (seg.length - 1)
                         else seg.dropWhile isSpaceChar), r4)
                | none => none)) else none) = some (cap, r) := h
          rw [if_pos hc3, if_neg hseg] at hh0
          exact hh0
        cases h34 : dropLit litFromRN (r3.dropWhile isSpaceChar) with
        | none => rw [h34] at hh; exact Option.noConfusion hh
        | some r4 =>
          rw [h34] at hh
          have hr : r = r4 := by
            injection hh with hh1
            injection hh1 with hh2 hh3
            exact hh3.symm
          have h4 := dropLit_length _ _ _ h34
          have h5 := dropWhile_length_le isSpaceChar r3
          have h20 : litFromRN.length = 20 := by decide
          subst hr
          simp only [List.length_cons]
          omega
    · have hh : (if c3 = '\x7d' then (if seg.isEmpty then none else
          (match dropLit litFromRN (r3.dropWhile isSpaceChar) with
            | some r4 =>
              some ((if (seg.dropWhile isSpaceChar).isEmpty then seg.drop (seg.length - 1)
                     else seg.dropWhile isSpaceChar), r4)
            | none => none)) else none) = some (cap, r) := h
      rw [if_neg hc3] at hh
      exact Option.noConfusion hh

/-- The after-keyword import matcher only shrinks its input. -/
theorem importAfterKw_length {s cap r : List Char}
    (h : importAfterKw s = some (cap, r)) : r.length < s.length := by
  cases s with
  | nil => exact Option.noConfusion h
  | cons c2 r2 =>
    by_cases hc2 : c2 = '\x7b'
    · have hh : importSeg (r2.takeWhile (fun c => c ≠ '\x7d'))
          (r2.dropWhile (fun c => c ≠ '\x7d')) = some (cap, r) := by
        have hh0 : (if c2 = '\x7b' then
            importSeg (r2.takeWhile (fun c => c ≠ '\x7d'))
              (r2.dropWhile (fun c => c ≠ '\x7d')) else none) = some (cap, r) := h
        rwa [if_pos hc2] at hh0
      have h1 := importSeg_length hh
      have h2 := dropWhile_length_le (fun c => decide (c ≠ '\x7d')) r2
      simp only [List.length_cons]
      omega
    · have hh : (if c2 = '\x7b' then
          importSeg (r2.takeWhile (fun c => c ≠ '\x7d'))
            (r2.dropWhile (fun c => c ≠ '\x7d')) else none) = some (cap, r) := h
      rw [if_neg hc2] at hh
      exact Option.noConfusion hh

/-- The braced-import matcher only shrinks its input. -/
theorem matchImportBraceAt_length {s cap r : List Char}
    (h : matchImportBraceAt s = some (cap, r)) : r.length < s.length := by
  unfold matchImportBraceAt at h
  cases hd : dropLit litImport s with
  | none => rw [hd] at h; exact Option.noConfusion h
  | some r1 =>
    rw [hd] at h
    have h' : importAfterKw (r1.dropWhile isSpaceChar) = some (cap, r) := h
    have h1 := importAfterKw_length h'
    have h2 := dropWhile_length_le isSpaceChar r1
    have h3 := dropLit_length _ _ _ hd
    have h6 : litImport.length = 6 := by decide
    omega

/-- The React segment matcher only shrinks its input. -/
theorem reactSeg_length {seg s m r : List Char}
    (h : reactSeg seg s = some (m, r)) : r.length < s.length := by
  cases s with
  | nil => exact Option.noConfusion h
  | cons c2 r2 =>
    by_cases hc2 : c2 = ';'
    · have hh : (if c2 = ';' then some (litImportReact ++ seg ++ [';'], r2) else none)
          = some (m, r) := h
      rw [if_pos hc2] at hh
      have hr : r = r2 := by
        injection hh with hh1
        injection hh1 with hh2 hh3
        exact hh3.symm
      subst hr
      simp
    · have hh : (if c2 = ';' then some (litImportReact ++ seg ++ [';'], r2) else none)
          = some (m, r) := h
      rw [if_neg hc2] at hh
      exact Option.noConfusion hh

/-- The React import matcher only shrinks its input. -/
theorem matchImportReactAt_length {s m r : List Char}
    (h : matchImportReactAt s = some (m, r)) : r.length < s.length := by
  unfold matchImportReactAt at h
  cases hd : dropLit litImportReact s with
  | none => rw [hd] at h; exact Option.noConfusion h
  | some r1 =>
    rw [hd] at h
    have h' : reactSeg (r1.takeWhile (fun c => c ≠ ';'))
        (r1.dropWhile (fun c => c ≠ ';')) = some (m, r) := h
    have h1 := reactSeg_length h'
    have h2 := dropWhile_length_le (fun c => decide (c ≠ ';')) r1
    have h3 := dropLit_length _ _ _ hd
    have h12 : litImportReact.length = 12 := by decide
    omega

/-- Fuelled body of re.findall with the style-declaration pattern: scan
left to right, at each position try a match; on success record the
captured group and continue after the match (non-overlapping, as
re.findall does); on failure advance one character.  The fuel only bounds
the recursion; every successful match consumes at least one character
(matchStyleDeclAt_length), so fuel equal to the input length never runs
out, as the fuel-irrelevance lemma below makes precise. -/
def findStyleVarsF : Nat → List Char → List (List Char)
  | 0, _ => []
  | _, [] => []
  | fuel + 1, c :: cs =>
    match matchStyleDeclAt (c :: cs) with
    | some (w, rest) => w :: findStyleVarsF fuel rest
    | none => findStyleVarsF fuel cs

/-- Embedding of re.findall with the style-declaration pattern (line 62 of
fix_stylesheets.py and line 31 of find_unwrapped_styles.py). -/
def findStyleVars (s : List Char) : List (List Char) := findStyleVarsF s.length s

/-- Fuelled body of re.sub with the style-declaration pattern and the
replacement of line 57 of fix_stylesheets.py: every non-overlapping match
is replaced by const group-1 = StyleSheet.create open-paren open-brace,
the whitespace of the match being normalised to single spaces. -/
def subStyleDeclF : Nat → List Char → List Char
  | 0, _ => []
  | _, [] => []
  | fuel + 1, c :: cs =>
    match matchStyleDeclAt (c :: cs) with
    | some (w, rest) => litDeclRepl1 ++ w ++ litDeclRepl2 ++ subStyleDeclF fuel rest
    | none => c :: subStyleDeclF fuel cs

/-- Embedding of re.sub with the style-declaration pattern (line 65 of
fix_stylesheets.py). -/
def subStyleDecl (s : List Char) : List Char := subStyleDeclF s.length s

/-- Fuelled body of re.sub with the braced-import pattern of line 26 of
fix_stylesheets.py and the replacement import open-brace group-1 comma
StyleSheet close-brace from 'react-native';. -/
def subImportBraceF : Nat → List Char → List Char
  | 0, _ => []
  | _, [] => []
  | fuel + 1, c :: cs =>
    match matchImportBraceAt (c :: cs) with
    | some (cap, rest) => litImpRepl1 ++ cap ++ litImpRepl2 ++ subImportBraceF fuel rest
    | none => c :: subImportBraceF fuel cs

/-- Embedding of re.sub with the braced-import pattern (lines 25 to 29 of
fix_stylesheets.py); matchImportBraceAt_length shows the fuel suffices. -/
def subImportBrace (s : List Char) : List Char := subImportBraceF s.length s

/-- Fuelled body of re.sub with the React import pattern of line 32 of
fix_stylesheets.py and the replacement group-1 newline import open-brace
StyleSheet close-brace from 'react-native'; (the new import line is
inserted directly after each matched React import statement). -/
def subImportReactF : Nat → List Char → List Char
  | 0, _ => []
  | _, [] => []
  | fuel + 1, c :: cs =>
    match matchImportReactAt (c :: cs) with
    | some (m, rest) => m ++ '\n' :: litNewImport ++ subImportReactF fuel rest
    | none => c :: subImportReactF fuel cs

/-- Embedding of re.sub with the React import pattern (lines 34 to 38 of
fix_stylesheets.py); matchImportReactAt_length shows the fuel suffices. -/
def subImportReact (s : List Char) : List Char := subImportReactF s.length s

/-- Embedding of re.search with the React import pattern (line 33 of
fix_stylesheets.py): a match exists at some position. -/
def hasImportReact : List Char → Bool
  | [] => false
  | c :: cs => (matchImportReactAt (c :: cs)).isSome || hasImportReact cs

/-- Fuelled body of re.sub (equivalently str.replace) with a literal
pattern: replace the non-overlapping occurrences of lit, scanning left to
right; dropLit_length shows fuel equal to the input length suffices. -/
def subLitF (lit rep : List Char) : Nat → List Char → List Char
  | 0, _ => []
  | _, [] => []
  | fuel + 1, c :: cs =>
    match dropLit lit (c :: cs) with
    | some rest =>
      if lit.isEmpty then c :: subLitF lit rep fuel cs
      else rep ++ subLitF lit rep fuel rest
    | none => c :: subLitF lit rep fuel cs

/-- Embedding of re.sub with a literal pattern. -/
def subLit (lit rep : List Char) (s : List Char) : List Char := subLitF lit rep s.length s

/-- Fuel irrelevance for the style-declaration findall scan. -/
theorem findStyleVarsF_mono : ∀ (f1 f2 : Nat) (s : List Char),
    s.length ≤ f1 → s.length ≤ f2 → findStyleVarsF f1 s = findStyleVarsF f2 s := by
  intro f1
  induction f1 with
  | zero =>
    intro f2 s h1 _
    have hs : s = [] := List.eq_nil_of_length_eq_zero (Nat.le_zero.mp h1)
    subst hs
    cases f2 <;> rfl
  | succ f ih =>
    intro f2 s h1 h2
    cases s with
    | nil => cases f2 <;> rfl
    | cons c cs =>
      cases f2 with
      | zero => simp at h2
      | succ g =>
        simp only [List.length_cons] at h1 h2
        have e1 : findStyleVarsF (f + 1) (c :: cs) =
            (match matchStyleDeclAt (c :: cs) with
              | some (w, rest) => w :: findStyleVarsF f rest
              | none => findStyleVarsF f cs) := rfl
        have e2 : findStyleVarsF (g + 1) (c :: cs) =
            (match matchStyleDeclAt (c :: cs) with
              | some (w, rest) => w :: findStyleVarsF g rest
              | none => findStyleVarsF g cs) := rfl
        rw [e1, e2]
        cases hm : matchStyleDeclAt (c :: cs) with
        | none => exact ih g cs (by omega) (by omega)
        | some p =>
          obtain ⟨w, rest⟩ := p
          have hr := matchStyleDeclAt_length hm
          simp only [List.length_cons] at hr
          show w :: findStyleVarsF f rest = w :: findStyleVarsF g rest
          rw [ih g rest (by omega) (by omega)]

/-- Defining equation of findStyleVars at a successful match. -/
theorem findStyleVars_cons_some {c : Char} {cs w rest : List Char}
    (h : matchStyleDeclAt (c :: cs) = some (w, rest)) :
    findStyleVars (c :: cs) = w :: findStyleVars rest := by
  have hr := matchStyleDeclAt_length h
  simp only [List.length_cons] at hr
  show findStyleVarsF (c :: cs).length (c :: cs) = _
  simp only [List.length_cons]
  have e1 : findStyleVarsF (cs.length + 1) (c :: cs) =
      (match matchStyleDeclAt (c :: cs) with
        | some (w, rest) => w :: findStyleVarsF cs.length rest
        | none => findStyleVarsF cs.length cs) := rfl
  rw [e1, h]
  show w :: findStyleVarsF cs.length rest = w :: findStyleVarsF rest.length rest
  rw [findStyleVarsF_mono cs.length rest.length rest (by omega) (by omega)]

/-- Defining equation of findStyleVars at a failed match. -/
theorem findStyleVars_cons_none {c : Char} {cs : List Char}
    (h : matchStyleDeclAt (c :: cs) = none) :
    findStyleVars (c :: cs) = findStyleVars cs := by
  show findStyleVarsF (c :: cs).length (c :: cs) = findStyleVarsF cs.length cs
  simp only [List.length_cons]
  have e1 : findStyleVarsF (cs.length + 1) (c :: cs) =
      (match matchStyleDeclAt (c :: cs) with
        | some (w, rest) => w :: findStyleVarsF cs.length rest
        | none => findStyleVarsF cs.length cs) := rfl
  rw [e1, h]

/-- Fuel irrelevance for the style-declaration substitution scan. -/
theorem subStyleDeclF_mono : ∀ (f1 f2 : Nat) (s : List Char),
    s.length ≤ f1 → s.length ≤ f2 → subStyleDeclF f1 s = subStyleDeclF f2 s := by
  intro f1
  induction f1 with
  | zero =>
    intro f2 s h1 _
    have hs : s = [] := List.eq_nil_of_length_eq_zero (Nat.le_zero.mp h1)
    subst hs
    cases f2 <;> rfl
  | succ f ih =>
    intro f2 s h1 h2
    cases s with
    | nil => cases f2 <;> rfl
    | cons c cs =>
      cases f2 with
      | zero => simp at h2
      | succ g =>
        simp only [List.length_cons] at h1 h2
        have e1 : subStyleDeclF (f + 1) (c :: cs) =
            (match matchStyleDeclAt (c :: cs) with
              | some (w, rest) => litDeclRepl1 ++ w ++ litDeclRepl2 ++ subStyleDeclF f rest
              | none => c :: subStyleDeclF f cs) := rfl
        have e2 : subStyleDeclF (g + 1) (c :: cs) =
            (match matchStyleDeclAt (c :: cs) with
              | some (w, rest) => litDeclRepl1 ++ w ++ litDeclRepl2 ++ subStyleDeclF g rest
              | none => c :: subStyleDeclF g cs) := rfl
        rw [e1, e2]
        cases hm : matchStyleDeclAt (c :: cs) with
        | none =>
          show c :: subStyleDeclF f cs = c :: subStyleDeclF g cs
          rw [ih g cs (by omega) (by omega)]
        | some p =>
          obtain ⟨w, rest⟩ := p
          have hr := matchStyleDeclAt_length hm
          simp only [List.length_cons] at hr
          show litDeclRepl1 ++ w ++ litDeclRepl2 ++ subStyleDeclF f rest
              = litDeclRepl1 ++ w ++ litDeclRepl2 ++ subStyleDeclF g rest
          rw [ih g rest (by omega) (by omega)]

/-- Defining equation of subStyleDecl at a successful match. -/
theorem subStyleDecl_cons_some {c : Char} {cs w rest : List Char}
    (h : matchStyleDeclAt (c :: cs) = some (w, rest)) :
    subStyleDecl (c :: cs) = litDeclRepl1 ++ w ++ litDeclRepl2 ++ subStyleDecl rest := by
  have hr := matchStyleDeclAt_length h
  simp only [List.length_cons] at hr
  show subStyleDeclF (c :: cs).length (c :: cs) = _
  simp only [List.length_cons]
  have e1 : subStyleDeclF (cs.length + 1) (c :: cs) =
      (match matchStyleDeclAt (c :: cs) with
        | some (w, rest) => litDeclRepl1 ++ w ++ litDeclRepl2 ++ subStyleDeclF cs.length rest
        | none => c :: subStyleDeclF cs.length cs) := rfl
  rw [e1, h]
  show litDeclRepl1 ++ w ++ litDeclRepl2 ++ subStyleDeclF cs.length rest
      = litDeclRepl1 ++ w ++ litDeclRepl2 ++ subStyleDeclF rest.length rest
  rw [subStyleDeclF_mono cs.length rest.length rest (by omega) (by omega)]

/-- Defining equation of subStyleDecl at a failed match. -/
theorem subStyleDecl_cons_none {c : Char} {cs : List Char}
    (h : matchStyleDeclAt (c :: cs) = none) :
    subStyleDecl (c :: cs) = c :: subStyleDecl cs := by
  show subStyleDeclF (c :: cs).length (c :: cs) = c :: subStyleDeclF cs.length cs
  simp only [List.length_cons]
  have e1 : subStyleDeclF (cs.length + 1) (c :: cs) =
      (match matchStyleDeclAt (c :: cs) with
        | some (w, rest) => litDeclRepl1 ++ w ++ litDeclRepl2 ++ subStyleDeclF cs.length rest
        | none => c :: subStyleDeclF cs.length cs) := rfl
  rw [e1, h]


/-- Embedding of fix_stylesheet_imports (lines 7 to 40 of
fix_stylesheets.py) as a pure function of the file content.  If the
substring StyleSheet occurs anywhere the content is returned unchanged;
otherwise, if the literal from 'react-native'; occurs, the two chained
substitutions of lines 20 to 29 are applied; otherwise, if the
React-import pattern matches somewhere, the new import line is inserted
after each React import; otherwise the content is returned unchanged. -/
def fix_stylesheet_imports (content : List Char) : List Char :=
  if hasSubstr litStyleSheet content then content
  else if hasSubstr litFromRN content then
    subImportBrace (subLit litFromRN litFromRNRepl content)
  else if hasImportReact content then subImportReact content
  else content

/-- Python str.split on the newline character: every newline separates two
(possibly empty) lines; the empty content yields one empty line. -/
def splitNl : List Char → List (List Char)
  | [] => [[]]
  | c :: cs =>
    if c = '\n' then [] :: splitNl cs
    else
      match splitNl cs with
      | [] => [[c]]
      | l :: ls => (c :: l) :: ls

/-- Python str.join with a newline separator, the inverse of splitNl. -/
def joinNl : List (List Char) → List Char
  | [] => []
  | [l] => l
  | l :: rest => l ++ '\n' :: joinNl rest

/-- Python str.strip: removes leading and trailing whitespace. -/
def stripL (l : List Char) : List Char :=
  ((l.dropWhile isSpaceChar).reverse.dropWhile isSpaceChar).reverse

/-- Per-line brace balance of line 76 of fix_stylesheets.py: count of open
braces minus count of close braces, as a (possibly negative) integer. -/
def braceNet (l : List Char) : Int :=
  (l.countP (fun c => c = '\x7b') : Int) - (l.countP (fun c => c = '\x7d') : Int)

/-- Closing-point scan of lines 74 to 82 of fix_stylesheets.py: starting
from the declaration line, keep a running brace depth; at the first line
where the depth is zero and the line contains a close brace, stop (break);
the result is that line's index when its stripped content is exactly the
bare terminator, and none otherwise (the break happens in either case).
The arguments are the remaining lines, the running depth before them, and
the absolute index of the first remaining line. -/
def closeTarget : List (List Char) → Int → Nat → Option Nat
  | [], _, _ => none
  | l :: rest, depth, j =>
    let d := depth + braceNet l
    if d = 0 ∧ l.contains '\x7d' then
      (if stripL l = litCloseSemi then some j else none)
    else closeTarget rest d (j + 1)

/-- Outer line loop of lines 70 to 84 of fix_stylesheets.py: for each index
i in order, when the stripped line matches the wrapped-declaration pattern,
run the closing-point scan from i; when it yields an index j, replace the
occurrences of the bare terminator in line j by the parenthesised
terminator (Python str.replace on that line).  Later iterations see the
mutated list, as the Python loop does. -/
def outerScanF : Nat → List (List Char) → Nat → List (List Char)
  | 0, ls, _ => ls
  | fuel + 1, ls, i =>
    if i < ls.length then
      (if matchesCreateLine (stripL (ls.getD i [])) then
        match closeTarget (ls.drop i) 0 i with
        | some j =>
          outerScanF fuel (ls.set j (subLit litCloseSemi litCloseParen (ls.getD j []))) (i + 1)
        | none => outerScanF fuel ls (i + 1)
      else outerScanF fuel ls (i + 1))
    else ls

/-- Wrapper supplying fuel for the whole index range; the list length is
invariant under the per-step set, so fuel equal to the number of remaining
indices never runs out, as the fuel-irrelevance lemma below makes precise. -/
def outerScan (ls : List (List Char)) (i : Nat) : List (List Char) :=
  outerScanF (ls.length - i) ls i

/-- Fuel irrelevance for the outer line loop. -/
theorem outerScanF_mono : ∀ (f1 f2 : Nat) (ls : List (List Char)) (i : Nat),
    ls.length - i ≤ f1 → ls.length - i ≤ f2 → outerScanF f1 ls i = outerScanF f2 ls i := by
  intro f1
  induction f1 with
  | zero =>
    intro f2 ls i h1 _
    have hge : ¬ i < ls.length := by omega
    cases f2 with
    | zero => rfl
    | succ g =>
      have e2 : outerScanF (g + 1) ls i =
          (if i < ls.length then
            (if matchesCreateLine (stripL (ls.getD i [])) then
              match closeTarget (ls.drop i) 0 i with
              | some j =>
                outerScanF g (ls.set j (subLit litCloseSemi litCloseParen (ls.getD j []))) (i + 1)
              | none => outerScanF g ls (i + 1)
            else outerScanF g ls (i + 1))
          else ls) := rfl
      rw [e2, if_neg hge]
      rfl
  | succ f ih =>
    intro f2 ls i h1 h2
    cases f2 with
    | zero =>
      have hge : ¬ i < ls.length := by omega
      have e1 : outerScanF (f + 1) ls i =
          (if i < ls.length then
            (if matchesCreateLine (stripL (ls.getD i [])) then
              match closeTarget (ls.drop i) 0 i with
              | some j =>
                outerScanF f (ls.set j (subLit litCloseSemi litCloseParen (ls.getD j []))) (i + 1)
              | none => outerScanF f ls (i + 1)
            else outerScanF f ls (i + 1))
          else ls) := rfl
      rw [e1, if_neg hge]
      rfl
    | succ g =>
      by_cases hlt : i < ls.length
      · have e1 : outerScanF (f + 1) ls i =
            (if i < ls.length then
              (if matchesCreateLine (stripL (ls.getD i [])) then
                match closeTarget (ls.drop i) 0 i with
                | some j =>
                  outerScanF f (ls.set j (subLit litCloseSemi litCloseParen (ls.getD j []))) (i + 1)
                | none => outerScanF f ls (i + 1)
              else outerScanF f ls (i + 1))
            else ls) := rfl
        have e2 : outerScanF (g + 1) ls i =
            (if i < ls.length then
              (if matchesCreateLine (stripL (ls.getD i [])) then
                match closeTarget (ls.drop i) 0 i with
                | some j =>
                  outerScanF g (ls.set j (subLit litCloseSemi litCloseParen (ls.getD j []))) (i + 1)
                | none => outerScanF g ls (i + 1)
              else outerScanF g ls (i + 1))
            else ls) := rfl
        rw [e1, e2, if_pos hlt, if_pos hlt]
        by_cases hm : matchesCreateLine (stripL (ls.getD i [])) = true
        · rw [if_pos hm, if_pos hm]
          cases hc : closeTarget (ls.drop i) 0 i with
          | none => exact ih g ls (i + 1) (by omega) (by omega)
          | some j =>
            have hlen : (ls.set j (subLit litCloseSemi litCloseParen (ls.getD j []))).length
                = ls.length := List.length_set ls j _
            exact ih g _ (i + 1) (by omega) (by omega)
        · rw [if_neg hm, if_neg hm]
          exact ih g ls (i + 1) (by omega) (by omega)
      · have e1 : outerScanF (f + 1) ls i =
            (if i < ls.length then
              (if matchesCreateLine (stripL (ls.getD i [])) then
                match closeTarget (ls.drop i) 0 i with
                | some j =>
                  outerScanF f (ls.set j (subLit litCloseSemi litCloseParen (ls.getD j []))) (i + 1)
                | none => outerScanF f ls (i + 1)
              else outerScanF f ls (i + 1))
            else ls) := rfl
        have e2 : outerScanF (g + 1) ls i =
            (if i < ls.length then
              (if matchesCreateLine (stripL (ls.getD i [])) then
                match closeTarget (ls.drop i) 0 i with
                | some j =>
                  outerScanF g (ls.set j (subLit litCloseSemi litCloseParen (ls.getD j []))) (i + 1)
                | none => outerScanF g ls (i + 1)
              else outerScanF g ls (i + 1))
            else ls) := rfl
        rw [e1, e2, if_neg hlt, if_neg hlt]

/-- Console message of the fixer for one file: the already-wrapped notice of
line 49 of fix_stylesheets.py, or the modification notice of line 86 with
the matched variable names. -/
inductive FixMsg where
  | alreadyUses : FixMsg
  | modifiedMsg (vars : List (List Char)) : FixMsg
deriving DecidableEq

/-- Embedding of wrap_styles_with_stylesheet (lines 42 to 92 of
fix_stylesheets.py) as a pure function of the original file content.  The
first component is the content of the file after the call: the file is
written only when at least one transformation was applied (the modified
flag, second component, is true); otherwise the in-memory content is
discarded and the file keeps its original content.  The third component
lists the console messages printed for the file.  The guard of line 48
skips files already containing StyleSheet.create; the import fix of line
53 and the findall of line 62 operate on the imported-fixed content; when
the match list is nonempty the substitution and the line loop run and the
modified flag is set (line 85). -/
def wrap_styles_with_stylesheet (content : List Char) : List Char × Bool × List FixMsg :=
  if hasSubstr litCreate content then (content, false, [FixMsg.alreadyUses])
  else
    let c1 := fix_stylesheet_imports content
    let vars := findStyleVars c1
    if vars.isEmpty then (content, false, [])
    else
      (joinNl (outerScan (splitNl (subStyleDecl c1)) 0), true, [FixMsg.modifiedMsg vars])

/-- Console message of the fixer main loop: the file-not-found warning of
line 125 of fix_stylesheets.py, or a per-file message. -/
inductive MainMsg where
  | notFound (path : List Char) : MainMsg
  | perFile (path : List Char) (m : FixMsg) : MainMsg
deriving DecidableEq

/-- Embedding of the fixer main loop (lines 119 to 127 of
fix_stylesheets.py).  The input models the hard-coded target list together
with the state of each path on disk (none when the path does not exist,
some content otherwise).  Returns the console messages in order, the
count of files actually modified (the summary of line 127), and the list
of files written with their new contents. -/
def fixerMain : List (List Char × Option (List Char)) →
    List MainMsg × Nat × List (List Char × List Char)
  | [] => ([], 0, [])
  | (p, none) :: rest =>
    let r := fixerMain rest
    (MainMsg.notFound p :: r.1, r.2.1, r.2.2)
  | (p, some c) :: rest =>
    let r := fixerMain rest
    let w := wrap_styles_with_stylesheet c
    ((w.2.2.map (MainMsg.perFile p)) ++ r.1,
      (if w.2.1 then r.2.1 + 1 else r.2.1),
      (if w.2.1 then (p, w.1) :: r.2.2 else r.2.2))

/-- File states after one fixer run: every existing file holds the content
left by wrap_styles_with_stylesheet (unchanged when the flag was false). -/
def afterRun (files : List (List Char × Option (List Char))) :
    List (List Char × Option (List Char)) :=
  files.map (fun f =>
    match f with
    | (p, some c) => (p, some (wrap_styles_with_stylesheet c).1)
    | (p, none) => (p, none))

/-- Disk state of one enumerated file as the scanner observes it: the path
no longer exists at the existence check of line 18 of
find_unwrapped_styles.py (absent), the open or read of lines 22 to 23
raises (errorRead), or the content is read successfully. -/
inductive ReadState where
  | absent : ReadState
  | errorRead : ReadState
  | ok (content : List Char) : ReadState
deriving DecidableEq

/-- Record appended to unwrapped_files (lines 38 to 41 of
find_unwrapped_styles.py): the file path and the matched variable names. -/
structure FileRec where
  file : List Char
  style_vars : List (List Char)
deriving DecidableEq

/-- Console message of the scanner for one file: the non-compliant line of
line 42, the compliant line of line 44, or the read warning of line 46. -/
inductive ScanMsg where
  | nonCompliant (file : List Char) (vars : List (List Char)) : ScanMsg
  | compliant (file : List Char) (vars : List (List Char)) : ScanMsg
  | readError (file : List Char) : ScanMsg
deriving DecidableEq

/-- Embedding of find_unwrapped_styles (lines 7 to 48 of
find_unwrapped_styles.py).  The input models the enumerated file list with
each file's observable state.  Returns the unwrapped-file records and the
console messages, both in file order.  A file failing the existence check
is skipped silently (line 18 to 19); a read error produces a warning
message and the file is skipped (lines 45 to 46); a readable file produces
a status line exactly when the style pattern matches at least once (lines
33 to 44), and a record exactly when additionally StyleSheet.create does
not occur in the content. -/
def find_unwrapped_styles : List (List Char × ReadState) → List FileRec × List ScanMsg
  | [] => ([], [])
  | (_, ReadState.absent) :: rest => find_unwrapped_styles rest
  | (p, ReadState.errorRead) :: rest =>
    let r := find_unwrapped_styles rest
    (r.1, ScanMsg.readError p :: r.2)
  | (p, ReadState.ok c) :: rest =>
    let r := find_unwrapped_styles rest
    let vars := findStyleVars c
    if vars.isEmpty then r
    else if hasSubstr litCreate c then (r.1, ScanMsg.compliant p vars :: r.2)
    else (⟨p, vars⟩ :: r.1, ScanMsg.nonCompliant p vars :: r.2)

/-- Closing-point selection exactly as claim C2 words it: scanning forward
from the declaration with a running brace-depth counter, the closing point
is the first line at depth zero whose stripped content is exactly the bare
terminator.  This definition follows the claim's words, not the source,
and is compared against closeTarget. -/
def claimedClose : List (List Char) → Int → Nat → Option Nat
  | [], _, _ => none
  | l :: rest, depth, j =>
    let d := depth + braceNet l
    if d = 0 ∧ stripL l = litCloseSemi then some j
    else claimedClose rest d (j + 1)

/-- First line at running brace-depth zero containing a close brace,
together with that line; the selection the source's break implements. -/
def firstZeroBraceLine : List (List Char) → Int → Nat → Option (Nat × List Char)
  | [], _, _ => none
  | l :: rest, depth, j =>
    let d := depth + braceNet l
    if d = 0 ∧ l.contains '\x7d' then some (j, l)
    else firstZeroBraceLine rest d (j + 1)


/-- A list is a prefix of itself followed by anything. -/
theorem hasPrefixL_self_append : ∀ (n t : List Char), hasPrefixL n (n ++ t) = true := by
  intro n
  induction n with
  | nil => intro t; rfl
  | cons a as ih =>
    intro t
    show (a = a && hasPrefixL as (as ++ t)) = true
    simp [ih t]

/-- A prefix occurrence is a substring occurrence. -/
theorem hasSubstr_of_prefix {n s : List Char} (h : hasPrefixL n s = true) :
    hasSubstr n s = true := by
  cases s with
  | nil =>
    cases n with
    | nil => rfl
    | cons a as => exact absurd h (by simp [hasPrefixL])
  | cons c cs =>
    show (hasPrefixL n (c :: cs) || hasSubstr n cs) = true
    simp [h]

/-- A substring of the tail is a substring of the whole. -/
theorem hasSubstr_cons {n l : List Char} (c : Char) (h : hasSubstr n l = true) :
    hasSubstr n (c :: l) = true := by
  show (hasPrefixL n (c :: l) || hasSubstr n l) = true
  simp [h]

/-- A substring occurrence survives prepending any list. -/
theorem hasSubstr_append_right {n t : List Char} : ∀ (u : List Char),
    hasSubstr n t = true → hasSubstr n (u ++ t) = true := by
  intro u
  induction u with
  | nil => intro h; simpa using h
  | cons a u' ih =>
    intro h
    show hasSubstr n (a :: (u' ++ t)) = true
    exact hasSubstr_cons a (ih h)

/-- A substring occurrence survives appending any list (prefix version). -/
theorem hasPrefixL_append_left {n : List Char} : ∀ {s : List Char} (t : List Char),
    hasPrefixL n s = true → hasPrefixL n (s ++ t) = true := by
  induction n with
  | nil => intro s t _; rfl
  | cons a as ih =>
    intro s t h
    cases s with
    | nil => exact absurd h (by simp [hasPrefixL])
    | cons b bs =>
      have hh : (a = b && hasPrefixL as bs) = true := h
      simp only [Bool.and_eq_true, decide_eq_true_eq] at hh
      show (a = b && hasPrefixL as (bs ++ t)) = true
      simp [hh.1, ih t hh.2]

/-- A substring occurrence survives appending any list. -/
theorem hasSubstr_append_left {n : List Char} : ∀ {s : List Char} (t : List Char),
    hasSubstr n s = true → hasSubstr n (s ++ t) = true := by
  intro s
  induction s with
  | nil =>
    intro t h
    have hn : n.isEmpty = true := h
    have : n = [] := by
      cases n with
      | nil => rfl
      | cons a as => exact absurd hn (by simp)
    subst this
    cases t with
    | nil => rfl
    | cons c cs => exact hasSubstr_of_prefix (by rfl)
  | cons c cs ih =>
    intro t h
    have hh : (hasPrefixL n (c :: cs) || hasSubstr n cs) = true := h
    rcases Bool.or_eq_true_iff.mp hh with h1 | h2
    · exact hasSubstr_of_prefix (hasPrefixL_append_left t h1)
    · exact hasSubstr_cons c (ih t h2)

/-- A prefix occurrence yields an append decomposition. -/
theorem hasPrefixL_exists_append {n : List Char} : ∀ {s : List Char},
    hasPrefixL n s = true → ∃ v, s = n ++ v := by
  induction n with
  | nil => intro s _; exact ⟨s, rfl⟩
  | cons a as ih =>
    intro s h
    cases s with
    | nil => exact absurd h (by simp [hasPrefixL])
    | cons b bs =>
      have hh : (a = b && hasPrefixL as bs) = true := h
      simp only [Bool.and_eq_true, decide_eq_true_eq] at hh
      obtain ⟨v, hv⟩ := ih hh.2
      exact ⟨v, by simp [hh.1.symm, hv]⟩

/-- Fuel irrelevance for the literal substitution scan. -/
theorem subLitF_mono (lit rep : List Char) : ∀ (f1 f2 : Nat) (s : List Char),
    s.length ≤ f1 → s.length ≤ f2 → subLitF lit rep f1 s = subLitF lit rep f2 s := by
  intro f1
  induction f1 with
  | zero =>
    intro f2 s h1 _
    have hs : s = [] := List.eq_nil_of_length_eq_zero (Nat.le_zero.mp h1)
    subst hs
    cases f2 <;> rfl
  | succ f ih =>
    intro f2 s h1 h2
    cases s with
    | nil => cases f2 <;> rfl
    | cons c cs =>
      cases f2 with
      | zero => simp at h2
      | succ g =>
        simp only [List.length_cons] at h1 h2
        have e1 : subLitF lit rep (f + 1) (c :: cs) =
            (match dropLit lit (c :: cs) with
              | some rest =>
                if lit.isEmpty then c :: subLitF lit rep f cs
                else rep ++ subLitF lit rep f rest
              | none => c :: subLitF lit rep f cs) := rfl
        have e2 : subLitF lit rep (g + 1) (c :: cs) =
            (match dropLit lit (c :: cs) with
              | some rest =>
                if lit.isEmpty then c :: subLitF lit rep g cs
                else rep ++ subLitF lit rep g rest
              | none => c :: subLitF lit rep g cs) := rfl
        rw [e1, e2]
        cases hm : dropLit lit (c :: cs) with
        | none =>
          show c :: subLitF lit rep f cs = c :: subLitF lit rep g cs
          rw [ih g cs (by omega) (by omega)]
        | some rest =>
          show (if lit.isEmpty then c :: subLitF lit rep f cs else rep ++ subLitF lit rep f rest)
              = (if lit.isEmpty then c :: subLitF lit rep g cs else rep ++ subLitF lit rep g rest)
          by_cases hl : lit.isEmpty = true
          · rw [if_pos hl, if_pos hl]
            rw [ih g cs (by omega) (by omega)]
          · rw [if_neg hl, if_neg hl]
            have hlen := dropLit_length _ _ _ hm
            have hne : lit.length ≠ 0 := by
              intro h0
              exact hl (List.isEmpty_iff_length_eq_zero.mpr h0)
            simp only [List.length_cons] at hlen
            rw [ih g rest (by omega) (by omega)]

/-- Defining equation of subLit on the empty input. -/
theorem subLit_nil (lit rep : List Char) : subLit lit rep [] = [] := rfl

/-- Defining equation of subLit at a matched literal occurrence. -/
theorem subLit_cons_some {lit rep rest : List Char} {c : Char} {cs : List Char}
    (h : dropLit lit (c :: cs) = some rest) (hne : lit ≠ []) :
    subLit lit rep (c :: cs) = rep ++ subLit lit rep rest := by
  have hlen := dropLit_length _ _ _ h
  have hne' : lit.length ≠ 0 := by
    intro h0
    exact hne (List.eq_nil_of_length_eq_zero h0)
  simp only [List.length_cons] at hlen
  have hl : lit.isEmpty = false := by
    cases lit with
    | nil => exact absurd rfl hne
    | cons a as => rfl
  show subLitF lit rep (c :: cs).length (c :: cs) = _
  simp only [List.length_cons]
  have e1 : subLitF lit rep (cs.length + 1) (c :: cs) =
      (match dropLit lit (c :: cs) with
        | some rest =>
          if lit.isEmpty then c :: subLitF lit rep cs.length cs
          else rep ++ subLitF lit rep cs.length rest
        | none => c :: subLitF lit rep cs.length cs) := rfl
  rw [e1, h]
  show (if lit.isEmpty then c :: subLitF lit rep cs.length cs
      else rep ++ subLitF lit rep cs.length rest) = _
  rw [if_neg (by simp [hl])]
  show rep ++ subLitF lit rep cs.length rest = rep ++ subLitF lit rep rest.length rest
  rw [subLitF_mono lit rep cs.length rest.length rest (by omega) (by omega)]

/-- Defining equation of subLit at an unmatched position. -/
theorem subLit_cons_none {lit rep : List Char} {c : Char} {cs : List Char}
    (h : dropLit lit (c :: cs) = none) :
    subLit lit rep (c :: cs) = c :: subLit lit rep cs := by
  show subLitF lit rep (c :: cs).length (c :: cs) = c :: subLitF lit rep cs.length cs
  simp only [List.length_cons]
  have e1 : subLitF lit rep (cs.length + 1) (c :: cs) =
      (match dropLit lit (c :: cs) with
        | some rest =>
          if lit.isEmpty then c :: subLitF lit rep cs.length cs
          else rep ++ subLitF lit rep cs.length rest
        | none => c :: subLitF lit rep cs.length cs) := rfl
  rw [e1, h]

/-- When the findall scan finds at least one style declaration, the
substituted output contains the wrapping-call literal: each replacement
inserts the text StyleSheet.create. -/
theorem subStyleDecl_contains : ∀ (s : List Char),
    findStyleVars s ≠ [] → hasSubstr litCreate (subStyleDecl s) = true := by
  suffices H : ∀ (k : Nat) (s : List Char), s.length ≤ k →
      findStyleVars s ≠ [] → hasSubstr litCreate (subStyleDecl s) = true by
    intro s
    exact H s.length s (le_refl _)
  intro k
  induction k with
  | zero =>
    intro s hs h
    have : s = [] := List.eq_nil_of_length_eq_zero (Nat.le_zero.mp hs)
    subst this
    exact absurd rfl h
  | succ k ih =>
    intro s hs h
    cases s with
    | nil => exact absurd rfl h
    | cons c cs =>
      cases hm : matchStyleDeclAt (c :: cs) with
      | some p =>
        obtain ⟨w, rest⟩ := p
        rw [subStyleDecl_cons_some hm]
        have hB : hasSubstr litCreate litDeclRepl2 = true := by decide
        have h1 : hasSubstr litCreate ((litDeclRepl1 ++ w) ++ litDeclRepl2) = true :=
          hasSubstr_append_right _ hB
        exact hasSubstr_append_left _ h1
      | none =>
        rw [subStyleDecl_cons_none hm]
        rw [findStyleVars_cons_none hm] at h
        simp only [List.length_cons] at hs
        exact hasSubstr_cons c (ih cs (by omega) h)

/-- The terminator literal cannot start at a character other than the
close brace. -/
theorem dropLit_closeSemi_none {a : Char} {t : List Char} (ha : a ≠ '\x7d') :
    dropLit litCloseSemi (a :: t) = none := by
  have e1 : dropLit litCloseSemi (a :: t) =
      (if a = '\x7d' then dropLit [';'] t else none) := rfl
  rw [e1, if_neg ha]

/-- Inversion of a successful terminator-literal match. -/
theorem dropLit_closeSemi_some {c : Char} {cs rest : List Char}
    (h : dropLit litCloseSemi (c :: cs) = some rest) : c = '\x7d' ∧ cs = ';' :: rest := by
  have hh : (if c = '\x7d' then dropLit [';'] cs else none) = some rest := h
  split at hh
  · rename_i hc
    cases cs with
    | nil => exact Option.noConfusion hh
    | cons b bs =>
      have hh2 : (if b = ';' then some bs else none) = some rest := hh
      split at hh2
      · rename_i hb
        refine ⟨hc, ?_⟩
        injection hh2 with hbs
        rw [hb, hbs]
      · exact Option.noConfusion hh2
  · exact Option.noConfusion hh

/-- The terminator substitution copies any close-brace-free block verbatim:
no occurrence of the terminator literal can start inside the block. -/
theorem subLit_skip_block {rep : List Char} : ∀ (m v : List Char),
    (∀ c ∈ m, c ≠ '\x7d') →
    subLit litCloseSemi rep (m ++ v) = m ++ subLit litCloseSemi rep v := by
  intro m
  induction m with
  | nil => intro v _; rfl
  | cons a m' ih =>
    intro v hm
    have ha : a ≠ '\x7d' := hm a (List.mem_cons_self a m')
    have hnone : dropLit litCloseSemi (a :: (m' ++ v)) = none := dropLit_closeSemi_none ha
    rw [List.cons_append, subLit_cons_none hnone, ih v (fun c hc => hm c (List.mem_cons_of_mem a hc))]
    rfl

/-- Removing a head character that does not occur in the needle preserves a
substring occurrence. -/
theorem hasSubstr_cons_elim {n : List Char} {c : Char} {l : List Char}
    (h : hasSubstr n (c :: l) = true) (hne : n ≠ []) (hc : c ∉ n) :
    hasSubstr n l = true := by
  have hh : (hasPrefixL n (c :: l) || hasSubstr n l) = true := h
  rcases Bool.or_eq_true_iff.mp hh with h1 | h2
  · cases n with
    | nil => exact absurd rfl hne
    | cons a as =>
      have hab : (a = c && hasPrefixL as l) = true := h1
      simp only [Bool.and_eq_true, decide_eq_true_eq] at hab
      exact absurd (show c ∈ a :: as by
        rw [← hab.1]
        exact List.mem_cons_self a as) hc
  · exact h2

/-- A substring with no close brace and no semicolon survives the
terminator substitution (no replaced occurrence can overlap it). -/
theorem subLit_keep {n rep : List Char} (hn7 : '\x7d' ∉ n) (hn5 : ';' ∉ n) :
    ∀ (l : List Char), hasSubstr n l = true →
      hasSubstr n (subLit litCloseSemi rep l) = true := by
  suffices H : ∀ (k : Nat) (l : List Char), l.length ≤ k → hasSubstr n l = true →
      hasSubstr n (subLit litCloseSemi rep l) = true by
    intro l
    exact H l.length l (le_refl _)
  intro k
  induction k with
  | zero =>
    intro l hl h
    have : l = [] := List.eq_nil_of_length_eq_zero (Nat.le_zero.mp hl)
    subst this
    exact h
  | succ k ih =>
    intro l hl h
    by_cases hne : n = []
    · subst hne
      cases subLit litCloseSemi rep l with
      | nil => rfl
      | cons x xs => rfl
    · cases l with
      | nil => exact h
      | cons c cs =>
        simp only [List.length_cons] at hl
        have hh : (hasPrefixL n (c :: cs) || hasSubstr n cs) = true := h
        rcases Bool.or_eq_true_iff.mp hh with h1 | h2
        · obtain ⟨v, hv⟩ := hasPrefixL_exists_append h1
          rw [hv, subLit_skip_block n v (fun x hx he => hn7 (he ▸ hx))]
          exact hasSubstr_of_prefix (hasPrefixL_self_append n _)
        · cases hd : dropLit litCloseSemi (c :: cs) with
          | none =>
            rw [subLit_cons_none hd]
            exact hasSubstr_cons c (ih cs (by omega) h2)
          | some rest =>
            rw [subLit_cons_some hd (by decide)]
            obtain ⟨hc7, hcs⟩ := dropLit_closeSemi_some hd
            subst hcs
            have h3 : hasSubstr n rest = true := hasSubstr_cons_elim h2 hne hn5
            apply hasSubstr_append_right
            simp only [List.length_cons] at hl
            exact ih rest (by omega) h3

/-- splitNl never returns the empty list of lines. -/
theorem splitNl_ne_nil : ∀ (s : List Char), splitNl s ≠ [] := by
  intro s
  cases s with
  | nil => simp [splitNl]
  | cons c cs =>
    show (if c = '\n' then [] :: splitNl cs else
      match splitNl cs with
      | [] => [[c]]
      | l :: ls => (c :: l) :: ls) ≠ []
    by_cases hc : c = '\n'
    · rw [if_pos hc]
      simp
    · rw [if_neg hc]
      cases splitNl cs <;> simp

/-- A newline-free prefix of the content is a prefix of the first line. -/
theorem hasPrefixL_splitNl_head : ∀ (n s : List Char), '\n' ∉ n →
    hasPrefixL n s = true → ∃ l ls, splitNl s = l :: ls ∧ hasPrefixL n l = true := by
  intro n
  induction n with
  | nil =>
    intro s _ _
    cases hs : splitNl s with
    | nil => exact absurd hs (splitNl_ne_nil s)
    | cons l ls => exact ⟨l, ls, rfl, rfl⟩
  | cons a n' ih =>
    intro s hnl h
    cases s with
    | nil => exact absurd h (by simp [hasPrefixL])
    | cons b bs =>
      have hh : (a = b && hasPrefixL n' bs) = true := h
      simp only [Bool.and_eq_true, decide_eq_true_eq] at hh
      have ha : a ≠ '\n' := fun he => hnl (by simp [he])
      obtain ⟨l, ls, hsplit, hpref⟩ := ih bs (fun hm => hnl (List.mem_cons_of_mem a hm)) hh.2
      refine ⟨b :: l, ls, ?_, ?_⟩
      · show (if b = '\n' then [] :: splitNl bs else
          match splitNl bs with
          | [] => [[b]]
          | l :: ls => (b :: l) :: ls) = (b :: l) :: ls
        rw [if_neg (hh.1 ▸ ha), hsplit]
      · show (a = b && hasPrefixL n' l) = true
        simp [hh.1, hpref]

/-- A newline-free substring of the content occurs inside some line. -/
theorem hasSubstr_splitNl {n : List Char} (hnl : '\n' ∉ n) : ∀ (s : List Char),
    hasSubstr n s = true → ∃ l, l ∈ splitNl s ∧ hasSubstr n l = true := by
  intro s
  induction s with
  | nil =>
    intro h
    refine ⟨[], ?_, h⟩
    show [] ∈ [[]]
    exact List.mem_cons_self [] []
  | cons c cs ih =>
    intro h
    have hh : (hasPrefixL n (c :: cs) || hasSubstr n cs) = true := h
    rcases Bool.or_eq_true_iff.mp hh with h1 | h2
    · obtain ⟨l, ls, hsplit, hpref⟩ := hasPrefixL_splitNl_head n (c :: cs) hnl h1
      exact ⟨l, by rw [hsplit]; exact List.mem_cons_self l ls, hasSubstr_of_prefix hpref⟩
    · obtain ⟨l, hmem, hsub⟩ := ih h2
      by_cases hc : c = '\n'
      · refine ⟨l, ?_, hsub⟩
        show l ∈ (if c = '\n' then [] :: splitNl cs else
          match splitNl cs with
          | [] => [[c]]
          | l :: ls => (c :: l) :: ls)
        rw [if_pos hc]
        exact List.mem_cons_of_mem [] hmem
      · cases hs : splitNl cs with
        | nil => exact absurd hs (splitNl_ne_nil cs)
        | cons l0 ls0 =>
          rw [hs] at hmem
          have hsplit : splitNl (c :: cs) = (c :: l0) :: ls0 := by
            show (if c = '\n' then [] :: splitNl cs else
              match splitNl cs with
              | [] => [[c]]
              | l :: ls => (c :: l) :: ls) = (c :: l0) :: ls0
            rw [if_neg hc, hs]
          rcases List.mem_cons.mp hmem with he | hmem'
          · subst he
            exact ⟨c :: l, by rw [hsplit]; exact List.mem_cons_self _ _, hasSubstr_cons c hsub⟩
          · exact ⟨l, by rw [hsplit]; exact List.mem_cons_of_mem _ hmem', hsub⟩

/-- A substring of some line is a substring of the joined content. -/
theorem hasSubstr_joinNl {n : List Char} : ∀ (ls : List (List Char)) (l : List Char),
    l ∈ ls → hasSubstr n l = true → hasSubstr n (joinNl ls) = true := by
  intro ls
  induction ls with
  | nil => intro l hmem _; exact absurd hmem (List.not_mem_nil l)
  | cons a rest ih =>
    intro l hmem hsub
    rcases List.mem_cons.mp hmem with he | hmem'
    · subst he
      cases rest with
      | nil => exact hsub
      | cons b rs => exact hasSubstr_append_left _ hsub
    · cases rest with
      | nil => exact absurd hmem' (List.not_mem_nil l)
      | cons b rs =>
        have h1 := ih l hmem' hsub
        show hasSubstr n (a ++ '\n' :: joinNl (b :: rs)) = true
        exact hasSubstr_append_right a (hasSubstr_cons '\n' h1)

/-- The outer loop leaves the lines unchanged once the index is past the end. -/
theorem outerScan_stop {ls : List (List Char)} {i : Nat} (h : ls.length ≤ i) :
    outerScan ls i = ls := by
  show outerScanF (ls.length - i) ls i = ls
  have h0 : ls.length - i = 0 := by omega
  rw [h0]
  rfl

/-- Defining equation of the outer loop at a live index. -/
theorem outerScan_step {ls : List (List Char)} {i : Nat} (h : i < ls.length) :
    outerScan ls i =
      (if matchesCreateLine (stripL (ls.getD i [])) then
        match closeTarget (ls.drop i) 0 i with
        | some j => outerScan (ls.set j (subLit litCloseSemi litCloseParen (ls.getD j []))) (i + 1)
        | none => outerScan ls (i + 1)
      else outerScan ls (i + 1)) := by
  show outerScanF (ls.length - i) ls i = _
  cases hf : ls.length - i with
  | zero => omega
  | succ f =>
    have hfe : f = ls.length - (i + 1) := by omega
    have e1 : outerScanF (f + 1) ls i =
        (if i < ls.length then
          (if matchesCreateLine (stripL (ls.getD i [])) then
            match closeTarget (ls.drop i) 0 i with
            | some j =>
              outerScanF f (ls.set j (subLit litCloseSemi litCloseParen (ls.getD j []))) (i + 1)
            | none => outerScanF f ls (i + 1)
          else outerScanF f ls (i + 1))
        else ls) := rfl
    rw [e1, if_pos h]
    by_cases hm : matchesCreateLine (stripL (ls.getD i [])) = true
    · rw [if_pos hm, if_pos hm]
      cases hc : closeTarget (ls.drop i) 0 i with
      | none =>
        show outerScanF f ls (i + 1) = outerScanF (ls.length - (i + 1)) ls (i + 1)
        rw [hfe]
      | some j =>
        show outerScanF f (ls.set j (subLit litCloseSemi litCloseParen (ls.getD j []))) (i + 1)
            = outerScanF ((ls.set j (subLit litCloseSemi litCloseParen (ls.getD j []))).length
                - (i + 1)) (ls.set j (subLit litCloseSemi litCloseParen (ls.getD j []))) (i + 1)
        rw [List.length_set, hfe]
    · rw [if_neg hm, if_neg hm]
      show outerScanF f ls (i + 1) = outerScanF (ls.length - (i + 1)) ls (i + 1)
      rw [hfe]

/-- A line containing a needle without close brace and semicolon survives
every iteration of the outer loop: the only mutation is the terminator
substitution on single lines, which preserves such needles. -/
theorem outerScanF_keep {n : List Char} (hn7 : '\x7d' ∉ n) (hn5 : ';' ∉ n) :
    ∀ (fuel : Nat) (ls : List (List Char)) (i : Nat),
      (∃ (idx : Nat) (l : List Char), ls[idx]? = some l ∧ hasSubstr n l = true) →
      ∃ (idx : Nat) (l : List Char),
        (outerScanF fuel ls i)[idx]? = some l ∧ hasSubstr n l = true := by
  intro fuel
  induction fuel with
  | zero => intro ls i h; exact h
  | succ f ih =>
    intro ls i h
    have e1 : outerScanF (f + 1) ls i =
        (if i < ls.length then
          (if matchesCreateLine (stripL (ls.getD i [])) then
            match closeTarget (ls.drop i) 0 i with
            | some j =>
              outerScanF f (ls.set j (subLit litCloseSemi litCloseParen (ls.getD j []))) (i + 1)
            | none => outerScanF f ls (i + 1)
          else outerScanF f ls (i + 1))
        else ls) := rfl
    by_cases hlt : i < ls.length
    · rw [e1, if_pos hlt]
      by_cases hm : matchesCreateLine (stripL (ls.getD i [])) = true
      · rw [if_pos hm]
        cases hc : closeTarget (ls.drop i) 0 i with
        | none => exact ih ls (i + 1) h
        | some j =>
          apply ih
          obtain ⟨idx, l, hidx, hsub⟩ := h
          by_cases hij : idx = j
          · subst hij
            have hlen : idx < ls.length := by
              by_contra hge
              have : ls[idx]? = none := List.getElem?_eq_none (by omega)
              rw [this] at hidx
              exact Option.noConfusion hidx
            refine ⟨idx, subLit litCloseSemi litCloseParen (ls.getD idx []), ?_, ?_⟩
            · exact List.getElem?_set_eq_of_lt _ hlen
            · have hD : ls.getD idx [] = l := by
                rw [List.getD_eq_getElem?_getD, hidx]
                rfl
              rw [hD]
              exact subLit_keep hn7 hn5 l hsub
          · refine ⟨idx, l, ?_, hsub⟩
            rw [List.getElem?_set_ne (fun he => hij he.symm)]
            exact hidx
      · rw [if_neg hm]
        exact ih ls (i + 1) h
    · rw [e1, if_neg hlt]
      exact h

/-- Wrapper form of the preservation lemma for the outer loop. -/
theorem outerScan_keep {n : List Char} (hn7 : '\x7d' ∉ n) (hn5 : ';' ∉ n)
    (ls : List (List Char)) (i : Nat)
    (h : ∃ (idx : Nat) (l : List Char), ls[idx]? = some l ∧ hasSubstr n l = true) :
    ∃ (idx : Nat) (l : List Char),
      (outerScan ls i)[idx]? = some l ∧ hasSubstr n l = true :=
  outerScanF_keep hn7 hn5 (ls.length - i) ls i h

/-- A successful index lookup yields list membership. -/
theorem mem_of_getElemQ {α : Type} : ∀ {l : List α} {i : Nat} {a : α},
    l[i]? = some a → a ∈ l := by
  intro l
  induction l with
  | nil =>
    intro i a h
    rw [List.getElem?_nil] at h
    exact Option.noConfusion h
  | cons b bs ih =>
    intro i a h
    cases i with
    | zero =>
      rw [List.getElem?_cons_zero] at h
      injection h with hba
      rw [← hba]
      exact List.mem_cons_self b bs
    | succ i' =>
      rw [List.getElem?_cons_succ] at h
      exact List.mem_cons_of_mem b (ih h)

/-- Unfolding of the fixer on a file already containing the wrapping call. -/
theorem wrap_eq_of_guard (c : List Char) (hg : hasSubstr litCreate c = true) :
    wrap_styles_with_stylesheet c = (c, false, [FixMsg.alreadyUses]) := by
  unfold wrap_styles_with_stylesheet
  rw [if_pos hg]

/-- Unfolding of the fixer when the style pattern never matches. -/
theorem wrap_eq_of_noguard_empty (c : List Char) (hg : hasSubstr litCreate c = false)
    (hv : (findStyleVars (fix_stylesheet_imports c)).isEmpty = true) :
    wrap_styles_with_stylesheet c = (c, false, []) := by
  unfold wrap_styles_with_stylesheet
  rw [if_neg (by simp [hg])]
  show (if (findStyleVars (fix_stylesheet_imports c)).isEmpty then ((c, false, []) :
      List Char × Bool × List FixMsg) else
    (joinNl (outerScan (splitNl (subStyleDecl (fix_stylesheet_imports c))) 0), true,
      [FixMsg.modifiedMsg (findStyleVars (fix_stylesheet_imports c))])) = (c, false, [])
  rw [if_pos hv]

/-- Unfolding of the fixer when the style pattern matches at least once. -/
theorem wrap_eq_of_noguard_nonempty (c : List Char) (hg : hasSubstr litCreate c = false)
    (hv : (findStyleVars (fix_stylesheet_imports c)).isEmpty = false) :
    wrap_styles_with_stylesheet c =
      (joinNl (outerScan (splitNl (subStyleDecl (fix_stylesheet_imports c))) 0), true,
        [FixMsg.modifiedMsg (findStyleVars (fix_stylesheet_imports c))]) := by
  unfold wrap_styles_with_stylesheet
  rw [if_neg (by simp [hg])]
  show (if (findStyleVars (fix_stylesheet_imports c)).isEmpty then ((c, false, []) :
      List Char × Bool × List FixMsg) else
    (joinNl (outerScan (splitNl (subStyleDecl (fix_stylesheet_imports c))) 0), true,
      [FixMsg.modifiedMsg (findStyleVars (fix_stylesheet_imports c))])) = _
  rw [if_neg (by simp [hv])]

/-- The wrapping-call literal contains no close brace. -/
theorem litCreate_no_brace : '\x7d' ∉ litCreate := by decide

/-- The wrapping-call literal contains no semicolon. -/
theorem litCreate_no_semi : ';' ∉ litCreate := by decide

/-- The wrapping-call literal contains no newline. -/
theorem litCreate_no_newline : '\n' ∉ litCreate := by decide

/-- When the fixer modifies a file, the written content contains the
wrapping-call literal: the substitution inserted it into some line and no
later line mutation can destroy it. -/
theorem wrap_true_contains (c : List Char)
    (h : (wrap_styles_with_stylesheet c).2.1 = true) :
    hasSubstr litCreate (wrap_styles_with_stylesheet c).1 = true := by
  by_cases hg : hasSubstr litCreate c = true
  · rw [wrap_eq_of_guard c hg] at h
    exact absurd h (by simp)
  · have hg' : hasSubstr litCreate c = false := by
      cases hx : hasSubstr litCreate c
      · rfl
      · exact absurd hx hg
    by_cases hv : (findStyleVars (fix_stylesheet_imports c)).isEmpty = true
    · rw [wrap_eq_of_noguard_empty c hg' hv] at h
      exact absurd h (by simp)
    · have hv' : (findStyleVars (fix_stylesheet_imports c)).isEmpty = false := by
        cases hx : (findStyleVars (fix_stylesheet_imports c)).isEmpty
        · rfl
        · exact absurd hx hv
      rw [wrap_eq_of_noguard_nonempty c hg' hv']
      have h1 : findStyleVars (fix_stylesheet_imports c) ≠ [] := by
        intro h0
        rw [h0] at hv'
        exact absurd hv' (by simp)
      have h2 := subStyleDecl_contains _ h1
      obtain ⟨l, hmem, hsub⟩ := hasSubstr_splitNl litCreate_no_newline _ h2
      obtain ⟨idx, hidx⟩ := List.getElem?_of_mem hmem
      obtain ⟨idx2, l2, hidx2, hsub2⟩ := outerScan_keep litCreate_no_brace litCreate_no_semi
        (splitNl (subStyleDecl (fix_stylesheet_imports c))) 0 ⟨idx, l, hidx, hsub⟩
      exact hasSubstr_joinNl _ l2 (mem_of_getElemQ hidx2) hsub2

/-- When the fixer does not modify a file, the file keeps its original
content (the in-memory transformation is discarded without a write). -/
theorem wrap_flag_false_content (c : List Char)
    (h : (wrap_styles_with_stylesheet c).2.1 = false) :
    (wrap_styles_with_stylesheet c).1 = c := by
  by_cases hg : hasSubstr litCreate c = true
  · rw [wrap_eq_of_guard c hg]
  · have hg' : hasSubstr litCreate c = false := by
      cases hx : hasSubstr litCreate c
      · rfl
      · exact absurd hx hg
    by_cases hv : (findStyleVars (fix_stylesheet_imports c)).isEmpty = true
    · rw [wrap_eq_of_noguard_empty c hg' hv]
    · have hv' : (findStyleVars (fix_stylesheet_imports c)).isEmpty = false := by
        cases hx : (findStyleVars (fix_stylesheet_imports c)).isEmpty
        · rfl
        · exact absurd hx hv
      rw [wrap_eq_of_noguard_nonempty c hg' hv'] at h
      exact absurd h (by simp)

/-- A second fixer run on the content left by a first run never modifies
the file again, and when the first run did modify it the second run takes
the already-wrapped early return. -/
theorem wrap_second_run (c : List Char) :
    (wrap_styles_with_stylesheet ((wrap_styles_with_stylesheet c).1)).2.1 = false ∧
    ((wrap_styles_with_stylesheet c).2.1 = true →
      wrap_styles_with_stylesheet ((wrap_styles_with_stylesheet c).1) =
        ((wrap_styles_with_stylesheet c).1, false, [FixMsg.alreadyUses])) := by
  cases hf : (wrap_styles_with_stylesheet c).2.1 with
  | true =>
    have hcontains := wrap_true_contains c hf
    have heq := wrap_eq_of_guard _ hcontains
    constructor
    · rw [heq]
    · intro _
      exact heq
  | false =>
    have hcontent := wrap_flag_false_content c hf
    constructor
    · rw [hcontent]
      exact hf
    · intro hcontra
      exact absurd hcontra (by simp)

/-- Concrete file content with a well-formed braced react-native import. -/
def exImportRN : List Char := ("import \x7b View \x7d from 'react-native';").data

/-- Output of the fixer's import pass on exImportRN: the first substitution
inserts a second close brace before from, after which the braced-import
pattern can no longer match (its character class cannot cross the first
close brace), so StyleSheet is never added. -/
def exImportRNOut : List Char := ("import \x7b View \x7d \x7d from 'react-native';").data

/-- Concrete content whose first depth-zero close-brace line is not an
exact bare terminator, while a later line at running depth zero is. -/
def exUnclosed : List Char := ("const styles = \x7b\n\x7d ;\nconst other = \x7b\n\x7d;").data

/-- Concrete scenario content of the specification: a React framework
statement of import and an unwrapped style object literal. -/
def exScenario : List Char :=
  ("import React from 'react';\n\nconst styles = \x7b\n  foo: 1,\n\x7d;").data

/-- Expected fixer output for the scenario content: the StyleSheet import
line inserted after the React import, the declaration wrapped, and the
terminator parenthesised. -/
def exScenarioOut : List Char :=
  ("import React from 'react';\nimport \x7b StyleSheet \x7d from 'react-native';\n\nconst styles = StyleSheet.create(\x7b\n  foo: 1,\n\x7d);").data

/-- Concrete content already containing the wrapping call. -/
def exAlready : List Char := ("const styles = StyleSheet.create(\x7b\n\x7d);").data

/-- Concrete content mentioning the wrapping call only inside a comment. -/
def exComment : List Char := ("// note: StyleSheet.create is used elsewhere").data

/-- Path used by the concrete witnesses. -/
def exPath : List Char := ("f.js").data

/-- Claim C1: on a file whose content holds a well-formed braced import
from 'react-native' (and no occurrence of StyleSheet), fix_stylesheet_imports
is documented and specified to add StyleSheet to the imported symbol set;
instead the chained substitutions mangle the import into the text
of import open-brace View close-brace close-brace from 'react-native'; and the
result contains no occurrence of StyleSheet at all.  This theorem evaluates
the embedded function at the failing input, exhibiting the bug. -/
theorem c1_import_rewrite_bug :
    fix_stylesheet_imports exImportRN = exImportRNOut ∧
    hasSubstr litStyleSheet exImportRNOut = false := by
  constructor
  · rfl
  · rfl

/-- Claim C2 counterexample: on exUnclosed the closing point described by
the claim exists (line 3, at running depth zero, stripping to the bare
terminator), yet the fixer modifies the file without rewriting any closing
line: line 3 of the written output still reads close-brace semicolon.  The
code breaks at the first depth-zero line containing a close brace (line 1,
which is not an exact terminator) instead of continuing the scan. -/
theorem c2_closing_scan_counterexample :
    claimedClose (splitNl (subStyleDecl exUnclosed)) 0 0 = some 3 ∧
    (wrap_styles_with_stylesheet exUnclosed).2.1 = true ∧
    (splitNl (wrap_styles_with_stylesheet exUnclosed).1).getD 3 [] = litCloseSemi := by
  refine ⟨?_, ?_, ?_⟩
  · rfl
  · rfl
  · rfl

/-- Claim C2 (amended): the closing scan stops at the first subsequent line
at running brace-depth zero that contains a close brace; that line is
rewritten (to the parenthesised terminator) exactly when its stripped
content is the bare terminator, and otherwise no closing line is rewritten
for the declaration, with no error or report. -/
theorem c2_closing_scan_amended (ls : List (List Char)) (depth : Int) (j : Nat) :
    closeTarget ls depth j =
      (match firstZeroBraceLine ls depth j with
        | some kl => if stripL kl.2 = litCloseSemi then some kl.1 else none
        | none => none) := by
  induction ls generalizing depth j with
  | nil => rfl
  | cons l rest ih =>
    by_cases hc : depth + braceNet l = 0 ∧ l.contains '\x7d' = true
    · show (if depth + braceNet l = 0 ∧ l.contains '\x7d' = true then
          (if stripL l = litCloseSemi then some j else none)
        else closeTarget rest (depth + braceNet l) (j + 1)) =
        (match (if depth + braceNet l = 0 ∧ l.contains '\x7d' = true then some (j, l)
          else firstZeroBraceLine rest (depth + braceNet l) (j + 1)) with
          | some kl => if stripL kl.2 = litCloseSemi then some kl.1 else none
          | none => none)
      rw [if_pos hc, if_pos hc]
    · show (if depth + braceNet l = 0 ∧ l.contains '\x7d' = true then
          (if stripL l = litCloseSemi then some j else none)
        else closeTarget rest (depth + braceNet l) (j + 1)) =
        (match (if depth + braceNet l = 0 ∧ l.contains '\x7d' = true then some (j, l)
          else firstZeroBraceLine rest (depth + braceNet l) (j + 1)) with
          | some kl => if stripL kl.2 = litCloseSemi then some kl.1 else none
          | none => none)
      rw [if_neg hc, if_neg hc]
      exact ih _ _

/-- Claim C5: on the scenario file (React import, no react-native import,
no wrapping-call occurrence, one unwrapped style object), the fixer
inserts the StyleSheet import line directly after the React import and
wraps the declaration, producing the expected content, reporting the file
modified with the matched variable name styles. -/
theorem c5_end_to_end_scenario :
    wrap_styles_with_stylesheet exScenario =
      (exScenarioOut, true, [FixMsg.modifiedMsg [("styles").data]]) := by rfl

/-- Claim C7 counterexample: a file that vanished before the existence
check is skipped with no warning: the scan of a single absent file
produces no records and no messages at all, while the claim requires a
warning line for every file that cannot be read, vanished files included. -/
theorem c7_vanished_no_warning_counterexample :
    find_unwrapped_styles [(("gone.js").data, ReadState.absent)] = ([], []) := by rfl

/-- Claim C7 (amended): a file whose open or read raises (permission error,
decode error, or vanished between the existence check and the read) is
reported with a warning and skipped, and the scan of the remaining files
continues unchanged; a file that already fails the existence check is
skipped silently, with no warning.  No read failure aborts the run. -/
theorem c7_error_handling_amended (files : List (List Char × ReadState)) (p : List Char) :
    find_unwrapped_styles ((p, ReadState.errorRead) :: files) =
      ((find_unwrapped_styles files).1,
        ScanMsg.readError p :: (find_unwrapped_styles files).2) ∧
    find_unwrapped_styles ((p, ReadState.absent) :: files) = find_unwrapped_styles files := by
  constructor
  · rfl
  · rfl

/-- A list never equals itself with an extra head element. -/
theorem ne_cons_self {α : Type} (a : α) (l : List α) : a :: l ≠ l := by
  intro h
  have hlen := congrArg List.length h
  simp only [List.length_cons] at hlen
  omega

/-- Claim C3: for a readable file, the scanner prints a status line exactly
when the style pattern matches at least once; the file enters the returned
unwrapped list exactly when additionally the content has no occurrence of
StyleSheet.create; a file with several matches contributes one record
carrying all matched variable names; a file with no match leaves both the
records and the messages untouched. -/
theorem c3_scanner_classification (files : List (List Char × ReadState)) (p c : List Char) :
    ((∃ m, (find_unwrapped_styles ((p, ReadState.ok c) :: files)).2
        = m :: (find_unwrapped_styles files).2) ↔ findStyleVars c ≠ []) ∧
    ((∃ r, (find_unwrapped_styles ((p, ReadState.ok c) :: files)).1
        = r :: (find_unwrapped_styles files).1) ↔
      (findStyleVars c ≠ [] ∧ hasSubstr litCreate c = false)) ∧
    (∀ r, (find_unwrapped_styles ((p, ReadState.ok c) :: files)).1
        = r :: (find_unwrapped_styles files).1 → r = ⟨p, findStyleVars c⟩) ∧
    (findStyleVars c = [] →
      find_unwrapped_styles ((p, ReadState.ok c) :: files) = find_unwrapped_styles files) := by
  have e1 : find_unwrapped_styles ((p, ReadState.ok c) :: files)
      = (if (findStyleVars c).isEmpty then find_unwrapped_styles files
        else if hasSubstr litCreate c then
          ((find_unwrapped_styles files).1,
            ScanMsg.compliant p (findStyleVars c) :: (find_unwrapped_styles files).2)
        else (⟨p, findStyleVars c⟩ :: (find_unwrapped_styles files).1,
          ScanMsg.nonCompliant p (findStyleVars c) :: (find_unwrapped_styles files).2)) := rfl
  by_cases hv : (findStyleVars c).isEmpty = true
  · have hnil : findStyleVars c = [] :=
      List.eq_nil_of_length_eq_zero (List.isEmpty_iff_length_eq_zero.mp hv)
    rw [e1, if_pos hv]
    refine ⟨?_, ?_, ?_, fun _ => rfl⟩
    · constructor
      · rintro ⟨m, hm⟩
        exact absurd hm.symm (ne_cons_self m _)
      · intro hne
        exact absurd hnil hne
    · constructor
      · rintro ⟨r, hr⟩
        exact absurd hr.symm (ne_cons_self r _)
      · rintro ⟨hne, _⟩
        exact absurd hnil hne
    · intro r hr
      exact absurd hr.symm (ne_cons_self r _)
  · have hne : findStyleVars c ≠ [] := by
      intro h0
      rw [h0] at hv
      exact hv rfl
    by_cases hcr : hasSubstr litCreate c = true
    · rw [e1, if_neg hv, if_pos hcr]
      refine ⟨?_, ?_, ?_, ?_⟩
      · exact ⟨fun _ => hne, fun _ => ⟨ScanMsg.compliant p (findStyleVars c), rfl⟩⟩
      · constructor
        · rintro ⟨r, hr⟩
          have hr' : (find_unwrapped_styles files).1
              = r :: (find_unwrapped_styles files).1 := hr
          exact absurd hr'.symm (ne_cons_self r _)
        · rintro ⟨_, hcf⟩
          rw [hcr] at hcf
          exact absurd hcf (by simp)
      · intro r hr
        have hr' : (find_unwrapped_styles files).1
            = r :: (find_unwrapped_styles files).1 := hr
        exact absurd hr'.symm (ne_cons_self r _)
      · intro h0
        exact absurd h0 hne
    · have hcr' : hasSubstr litCreate c = false := by
        cases hx : hasSubstr litCreate c
        · rfl
        · exact absurd hx hcr
      rw [e1, if_neg hv, if_neg (by simp [hcr'])]
      refine ⟨?_, ?_, ?_, ?_⟩
      · exact ⟨fun _ => hne, fun _ => ⟨ScanMsg.nonCompliant p (findStyleVars c), rfl⟩⟩
      · exact ⟨fun _ => ⟨hne, hcr'⟩, fun _ => ⟨⟨p, findStyleVars c⟩, rfl⟩⟩
      · intro r hr
        have hr' : (⟨p, findStyleVars c⟩ : FileRec) :: (find_unwrapped_styles files).1
            = r :: (find_unwrapped_styles files).1 := hr
        injection hr' with h1 _
        exact h1.symm
      · intro h0
        exact absurd h0 hne

/-- Witness for claim C3: a concrete non-compliant file enters the
returned list. -/
theorem c3_scanner_classification_witness :
    ∃ r, (find_unwrapped_styles [(exPath, ReadState.ok exUnclosed)]).1
      = r :: (find_unwrapped_styles []).1 :=
  (c3_scanner_classification [] exPath exUnclosed).2.1.mpr (by decide)

/-- Claim C4: running the fixer a second time on the file set left by a
first run writes no file and counts zero modifications, and for every file
the first run modified the second run takes the already-wrapped early
return, reporting it already uses StyleSheet.create. -/
theorem c4_fixer_idempotence (files : List (List Char × Option (List Char))) :
    (fixerMain (afterRun files)).2.2 = [] ∧
    (fixerMain (afterRun files)).2.1 = 0 ∧
    (∀ c : List Char, (wrap_styles_with_stylesheet c).2.1 = true →
      wrap_styles_with_stylesheet ((wrap_styles_with_stylesheet c).1) =
        ((wrap_styles_with_stylesheet c).1, false, [FixMsg.alreadyUses])) := by
  have H : (fixerMain (afterRun files)).2.1 = 0 ∧ (fixerMain (afterRun files)).2.2 = [] := by
    induction files with
    | nil => exact ⟨rfl, rfl⟩
    | cons f rest ih =>
      obtain ⟨q, oc⟩ := f
      cases oc with
      | none =>
        have e : afterRun ((q, none) :: rest) = (q, none) :: afterRun rest := rfl
        have e2 : fixerMain ((q, none) :: afterRun rest)
            = (MainMsg.notFound q :: (fixerMain (afterRun rest)).1,
              (fixerMain (afterRun rest)).2.1, (fixerMain (afterRun rest)).2.2) := rfl
        rw [e, e2]
        exact ih
      | some c =>
        have e : afterRun ((q, some c) :: rest)
            = (q, some (wrap_styles_with_stylesheet c).1) :: afterRun rest := rfl
        have hflag := (wrap_second_run c).1
        have e2 : fixerMain ((q, some (wrap_styles_with_stylesheet c).1) :: afterRun rest)
            = (((wrap_styles_with_stylesheet ((wrap_styles_with_stylesheet c).1)).2.2.map
                (MainMsg.perFile q)) ++ (fixerMain (afterRun rest)).1,
              (if (wrap_styles_with_stylesheet ((wrap_styles_with_stylesheet c).1)).2.1
                then (fixerMain (afterRun rest)).2.1 + 1 else (fixerMain (afterRun rest)).2.1),
              (if (wrap_styles_with_stylesheet ((wrap_styles_with_stylesheet c).1)).2.1
                then (q, (wrap_styles_with_stylesheet ((wrap_styles_with_stylesheet c).1)).1)
                  :: (fixerMain (afterRun rest)).2.2
                else (fixerMain (afterRun rest)).2.2)) := rfl
        rw [e, e2]
        rw [if_neg (by simp [hflag])]
        rw [if_neg (by simp [hflag])]
        exact ih
  exact ⟨H.2, H.1, fun c hc => (wrap_second_run c).2 hc⟩

/-- Witness for claim C4: the concrete scenario file, modified by a first
run, is reported already wrapped by the second run. -/
theorem c4_fixer_idempotence_witness :
    wrap_styles_with_stylesheet ((wrap_styles_with_stylesheet exScenario).1) =
      ((wrap_styles_with_stylesheet exScenario).1, false, [FixMsg.alreadyUses]) :=
  (c4_fixer_idempotence [(exPath, some exScenario)]).2.2 exScenario (by rfl)

/-- Claim C6: a file whose content already contains the wrapping-call
substring is returned byte for byte identical with the modified flag false
and the already-wrapped report; in the main loop it adds no write and does
not increment the modified count; and in general an unmodified file keeps
its original content (the file is overwritten only when a transformation
was applied). -/
theorem c6_frame_condition (c p : List Char) (files : List (List Char × Option (List Char)))
    (h : hasSubstr litCreate c = true) :
    wrap_styles_with_stylesheet c = (c, false, [FixMsg.alreadyUses]) ∧
    fixerMain ((p, some c) :: files) =
      (MainMsg.perFile p FixMsg.alreadyUses :: (fixerMain files).1,
        (fixerMain files).2.1, (fixerMain files).2.2) ∧
    (∀ d : List Char, (wrap_styles_with_stylesheet d).2.1 = false →
      (wrap_styles_with_stylesheet d).1 = d) := by
  have hw := wrap_eq_of_guard c h
  refine ⟨hw, ?_, fun d hd => wrap_flag_false_content d hd⟩
  have e2 : fixerMain ((p, some c) :: files)
      = (((wrap_styles_with_stylesheet c).2.2.map (MainMsg.perFile p)) ++ (fixerMain files).1,
        (if (wrap_styles_with_stylesheet c).2.1 then (fixerMain files).2.1 + 1
          else (fixerMain files).2.1),
        (if (wrap_styles_with_stylesheet c).2.1 then
          (p, (wrap_styles_with_stylesheet c).1) :: (fixerMain files).2.2
          else (fixerMain files).2.2)) := rfl
  rw [e2, hw]
  rfl

/-- Witness for claim C6: a concrete already-wrapped file is untouched. -/
theorem c6_frame_condition_witness :
    wrap_styles_with_stylesheet exAlready = (exAlready, false, [FixMsg.alreadyUses]) :=
  (c6_frame_condition exAlready exPath [] (by rfl)).1

/-- Claim C8: a nonexistent target path produces a warning and leaves the
count and the writes unchanged while the remaining files are still
processed; and on any target list the final count equals the number of
files for which the per-file fixer reported a modification. -/
theorem c8_main_loop_contract (files : List (List Char × Option (List Char))) (p : List Char) :
    (fixerMain ((p, none) :: files)).1 = MainMsg.notFound p :: (fixerMain files).1 ∧
    (fixerMain ((p, none) :: files)).2 = (fixerMain files).2 ∧
    (∀ fs : List (List Char × Option (List Char)),
      (fixerMain fs).2.1 = (fs.filter (fun f =>
        match f.2 with
        | some d => (wrap_styles_with_stylesheet d).2.1
        | none => false)).length) := by
  refine ⟨rfl, rfl, ?_⟩
  intro fs
  induction fs with
  | nil => rfl
  | cons f rest ih =>
    obtain ⟨q, oc⟩ := f
    cases oc with
    | none =>
      have e : (fixerMain ((q, none) :: rest)).2.1 = (fixerMain rest).2.1 := rfl
      rw [e, ih]
      rfl
    | some d =>
      have e : (fixerMain ((q, some d) :: rest)).2.1
          = (if (wrap_styles_with_stylesheet d).2.1 then (fixerMain rest).2.1 + 1
            else (fixerMain rest).2.1) := rfl
      rw [e]
      by_cases hf : (wrap_styles_with_stylesheet d).2.1 = true
      · rw [if_pos hf, List.filter_cons, if_pos hf, ih]
        rfl
      · have hf' : (wrap_styles_with_stylesheet d).2.1 = false := by
          cases hx : (wrap_styles_with_stylesheet d).2.1
          · rfl
          · exact absurd hx hf
        rw [if_neg (by simp [hf']), List.filter_cons, if_neg (by simp [hf']), ih]

/-- Claim C9: whenever the fixer rewrites a file, the written content
contains the wrapping-call substring; consequently the scanner never puts
such a file into the unwrapped list, and a subsequent fixer run takes the
already-wrapped early return without touching the file. -/
theorem c9_fixer_invariant (c p : List Char) (files : List (List Char × ReadState))
    (h : (wrap_styles_with_stylesheet c).2.1 = true) :
    hasSubstr litCreate (wrap_styles_with_stylesheet c).1 = true ∧
    (find_unwrapped_styles ((p, ReadState.ok (wrap_styles_with_stylesheet c).1) :: files)).1
      = (find_unwrapped_styles files).1 ∧
    wrap_styles_with_stylesheet ((wrap_styles_with_stylesheet c).1) =
      ((wrap_styles_with_stylesheet c).1, false, [FixMsg.alreadyUses]) := by
  have hcontains := wrap_true_contains c h
  refine ⟨hcontains, ?_, (wrap_second_run c).2 h⟩
  have e1 : find_unwrapped_styles
      ((p, ReadState.ok (wrap_styles_with_stylesheet c).1) :: files)
      = (if (findStyleVars (wrap_styles_with_stylesheet c).1).isEmpty
          then find_unwrapped_styles files
        else if hasSubstr litCreate (wrap_styles_with_stylesheet c).1 then
          ((find_unwrapped_styles files).1,
            ScanMsg.compliant p (findStyleVars (wrap_styles_with_stylesheet c).1)
              :: (find_unwrapped_styles files).2)
        else (⟨p, findStyleVars (wrap_styles_with_stylesheet c).1⟩
            :: (find_unwrapped_styles files).1,
          ScanMsg.nonCompliant p (findStyleVars (wrap_styles_with_stylesheet c).1)
            :: (find_unwrapped_styles files).2)) := rfl
  rw [e1]
  by_cases hv : (findStyleVars (wrap_styles_with_stylesheet c).1).isEmpty = true
  · rw [if_pos hv]
  · rw [if_neg hv, if_pos hcontains]

/-- Witness for claim C9, at the concrete scenario file. -/
theorem c9_fixer_invariant_witness :
    hasSubstr litCreate (wrap_styles_with_stylesheet exScenario).1 = true ∧
    (find_unwrapped_styles
        [(exPath, ReadState.ok (wrap_styles_with_stylesheet exScenario).1)]).1
      = (find_unwrapped_styles []).1 ∧
    wrap_styles_with_stylesheet ((wrap_styles_with_stylesheet exScenario).1) =
      ((wrap_styles_with_stylesheet exScenario).1, false, [FixMsg.alreadyUses]) :=
  c9_fixer_invariant exScenario exPath [] (by rfl)

/-- Claim C10: the fixer's guards are pure substring tests.  Any content
containing the substring StyleSheet.create, even inside a comment or a
string literal, makes wrap_styles_with_stylesheet return false without
writing; any content containing the substring StyleSheet, even as part of
another identifier, makes fix_stylesheet_imports return it unchanged. -/
theorem c10_substring_guards (c : List Char) :
    (hasSubstr litCreate c = true →
      wrap_styles_with_stylesheet c = (c, false, [FixMsg.alreadyUses])) ∧
    (hasSubstr litStyleSheet c = true → fix_stylesheet_imports c = c) := by
  constructor
  · exact wrap_eq_of_guard c
  · intro h
    unfold fix_stylesheet_imports
    rw [if_pos h]

/-- Witness for claim C10: a content mentioning the substrings only inside
a comment still triggers both guards. -/
theorem c10_substring_guards_witness :
    wrap_styles_with_stylesheet exComment = (exComment, false, [FixMsg.alreadyUses]) ∧
    fix_stylesheet_imports exComment = exComment :=
  ⟨(c10_substring_guards exComment).1 (by rfl), (c10_substring_guards exComment).2 (by rfl)⟩
